import Mathlib

/-!
Verification development for the ExtractorFileTool pipeline (src/main.py).

The program is shallowly embedded: Python strings stay `String`, Python dicts
become insertion-ordered association lists, the file system becomes an
association list from path to file content, and code that can raise becomes
`Except String`.  Each definition mirrors one Python function or method of
the source, keeping its name where Lean allows it.
-/

deriving instance DecidableEq for Except

namespace ExtractorTool

/-- Whitespace characters stripped by Python `str.strip()` on the inputs that
occur here (header lines of text files). -/
def pyIsSpace (c : Char) : Bool :=
  c = ' ' || c = '\t' || c = '\n' || c = '\x0d' || c = '\x0b' || c = '\x0c'

/-- Python `str.strip()`: drop leading and trailing whitespace. -/
def pyStrip (s : String) : String :=
  String.mk (((s.data.dropWhile pyIsSpace).reverse.dropWhile pyIsSpace).reverse)

/-- Python `str.rstrip('\n')`: drop every trailing newline character. -/
def pyRstripNl (s : String) : String :=
  String.mk ((s.data.reverse.dropWhile (fun c => c = '\n')).reverse)

/-- Whether the first list is a prefix of the second (on characters). -/
def isPrefixChars : List Char → List Char → Bool
  | [], _ => true
  | _ :: _, [] => false
  | c :: cs, d :: ds => c = d && isPrefixChars cs ds

/-- Fuel-driven worker for `pySplit`; the fuel is an upper bound on the number
of steps, so the recursion is structural. -/
def pySplitCore (sep : List Char) : Nat → List Char → List Char → List (List Char)
  | 0, acc, _ => [acc.reverse]
  | _ + 1, acc, [] => [acc.reverse]
  | fuel + 1, acc, c :: cs =>
    if isPrefixChars sep (c :: cs) then
      acc.reverse :: pySplitCore sep fuel [] (List.drop sep.length (c :: cs))
    else
      pySplitCore sep fuel (c :: acc) cs

/-- Python `s.split(sep)` for a non-empty separator `sep`:
`"a,,b".split(",") = ["a","","b"]`, `"".split(",") = [""]`. -/
def pySplit (sep s : String) : List String :=
  (pySplitCore sep.data (s.data.length + 1) [] s.data).map String.mk

/-- Python `c in s` for a single character `c` (substring test degenerates to
character membership). -/
def strContainsChar (s : String) (c : Char) : Bool :=
  s.data.contains c

/-- Worker for `pyLines`. -/
def pyLinesCore : List Char → List Char → List String
  | acc, [] => if acc.isEmpty then [] else [String.mk acc.reverse]
  | acc, c :: cs =>
    if c = '\n' then String.mk (acc.reverse ++ ['\n']) :: pyLinesCore [] cs
    else pyLinesCore (c :: acc) cs

/-- The lines of a Python text file with content `content`, as iteration,
`readline` and `readlines` produce them: each line keeps its trailing
newline, and a final fragment without a newline is its own line. -/
def pyLines (content : String) : List String :=
  pyLinesCore [] content.data

/-- Python dict assignment `d[k] = v` on an insertion-ordered association
list: an existing key keeps its position, a new key goes to the end. -/
def dictInsert {α : Type} : List (String × α) → String → α → List (String × α)
  | [], k, v => [(k, v)]
  | (k', v') :: rest, k, v =>
    if k' = k then (k', v) :: rest else (k', v') :: dictInsert rest k v

/-- Python `dict(pairs)`: left-to-right insertion, a later duplicate key
overwrites the value but keeps the first occurrence's position. -/
def dictOf {α : Type} (ps : List (String × α)) : List (String × α) :=
  ps.foldl (fun d p => dictInsert d p.1 p.2) []

/-- Python `d.get(k)` (and the value side of `d[k]`). -/
def dictGet {α : Type} : List (String × α) → String → Option α
  | [], _ => none
  | (k', v) :: rest, k => if k' = k then some v else dictGet rest k

/-- Python `k in d` / `k in d.keys()`. -/
def dictContains {α : Type} (d : List (String × α)) (k : String) : Bool :=
  (dictGet d k).isSome

/-- Python `d[k].append(v)` for a dict of lists.  Every call site in the
source first re-initializes the dict with exactly the keys it appends to, so
the missing-key case (a `KeyError` in Python) is unreachable and modelled as
a no-op. -/
def dictAppend : List (String × List String) → String → String → List (String × List String)
  | [], _, _ => []
  | (k', vs) :: rest, k, v =>
    if k' = k then (k', vs ++ [v]) :: rest else (k', vs) :: dictAppend rest k v

/-- A parsed record: Python dict from field name to raw string value. -/
abbrev Record := List (String × String)

/-- `SimpleDictReader._parse_row`: strip trailing newlines, split on the
delimiter, zip positionally against the field names, build a dict. -/
def parse_row (fieldnames : List String) (delimiter : String) (row : String) : Record :=
  dictOf (fieldnames.zip (pySplit delimiter (pyRstripNl row)))

/-- The quoting rule of `SimpleDictWriter._format_row`, per field: wrap in the
configured quote character unless the value already contains a straight
double quote (the containment test in the source is the literal `'"'`, not
the configured quote character). -/
def formatField (quotechar : String) (v : String) : String :=
  if strContainsChar v '"' then v else quotechar ++ v ++ quotechar

/-- The list comprehension inside `SimpleDictWriter._format_row`: format each
schema field's value left to right; the first field missing from the record
raises `KeyError`. -/
def formatVals (quotechar : String) (row : Record) : List String → Except String (List String)
  | [] => Except.ok []
  | f :: rest =>
    match dictGet row f with
    | none => Except.error ("KeyError: " ++ f)
    | some v =>
      match formatVals quotechar row rest with
      | Except.error e => Except.error e
      | Except.ok vs => Except.ok (formatField quotechar v :: vs)

/-- `SimpleDictWriter._format_row`: format each schema field's value and join
with the delimiter; a field missing from the record raises `KeyError`. -/
def format_row (fieldnames : List String) (delimiter quotechar : String) (row : Record) :
    Except String String :=
  match formatVals quotechar row fieldnames with
  | Except.error e => Except.error e
  | Except.ok vals => Except.ok (String.intercalate delimiter vals)

/-- `SimpleDictWriter.writerow`: append the formatted row plus one newline to
the output file content. -/
def writerow (fieldnames : List String) (delimiter quotechar : String)
    (content : String) (row : Record) : Except String String :=
  match format_row fieldnames delimiter quotechar row with
  | Except.error e => Except.error e
  | Except.ok line => Except.ok (content ++ line ++ "\n")

/-- The file system: association list from path to whole-file content. -/
abbrev FileSys := List (String × String)

/-- The header of a file, as `extract_data` and `read_codes` derive it:
`infile.readline().strip().split(',')`. -/
def headerOf (content : String) : List String :=
  pySplit "," (pyStrip ((pyLines content).headD ""))

/-- The data lines of a file: every line after the header line. -/
def dataLinesOf (content : String) : List String :=
  (pyLines content).tail

/-- Mutable state of a `DataExtractor`: `self.codes` (which the orchestrator
may set to `None` via `dict.get`) and `self.relevant_keys`. -/
structure ExtState where
  codes : Option (List String)
  relevant_keys : List (String × List String)
deriving DecidableEq

/-- Truthiness of the Python `record_relevant_keys` argument: `None` and the
empty list are falsy. -/
def truthyKeys : Option (List String) → Bool
  | none => false
  | some l => !l.isEmpty

/-- Truthiness of the orchestrator's `codes` variable (`None` or a dict):
`None` and the empty dict are falsy. -/
def truthyDict : Option (List (String × List String)) → Bool
  | none => false
  | some l => !l.isEmpty

/-- Harvesting done for one matching row: for each declared key, if the key
is present in the row, append the row's value to that key's sequence. -/
def harvestRow (rks : List String) (rel : List (String × List String)) (row : Record) :
    List (String × List String) :=
  rks.foldl (fun d k =>
    match dictGet row k with
    | some v => dictAppend d k v
    | none => d) rel

/-- The membership test `code in self.codes`: when the orchestrator has set
`self.codes` to `None`, Python raises a `TypeError`. -/
def memberCheck (codes : Option (List String)) (code : String) : Except String Bool :=
  match codes with
  | none => Except.error "TypeError: argument of type NoneType is not iterable"
  | some cs => Except.ok (cs.contains code)

/-- The row loop of `DataExtractor.extract_data`: reads each remaining line,
looks up the key column (a missing key raises `KeyError`), tests membership,
and for a matching row first harvests and then writes the row. -/
def extractLoop (codes : Option (List String)) (header : List String)
    (key_column : String) (rks : Option (List String)) :
    List String → String → List (String × List String) →
    Except String (String × List (String × List String))
  | [], out, rel => Except.ok (out, rel)
  | line :: rest, out, rel =>
    let row := parse_row header "," line
    match dictGet row key_column with
    | none => Except.error ("KeyError: " ++ key_column)
    | some code =>
      match memberCheck codes code with
      | Except.error e => Except.error e
      | Except.ok m =>
        if m then
          let rel' := if truthyKeys rks then harvestRow (rks.getD []) rel row else rel
          match writerow header "," "\"" out row with
          | Except.error e => Except.error e
          | Except.ok out' => extractLoop codes header key_column rks rest out' rel'
        else
          extractLoop codes header key_column rks rest out rel

/-- `DataExtractor.extract_data`: derive the header, write the header row,
re-initialize `self.relevant_keys` when harvest keys are declared, run the
row loop, store the output file, and return
`self.relevant_keys if self.relevant_keys else None`. -/
def extract_data (fs : FileSys) (st : ExtState)
    (input_file output_file key_column : String) (rks : Option (List String)) :
    Except String (FileSys × ExtState × Option (List (String × List String))) :=
  match dictGet fs input_file with
  | none => Except.error ("IOError: " ++ input_file)
  | some content =>
    let header := headerOf content
    match writerow header "," "\"" "" (dictOf (header.map (fun k => (k, k)))) with
    | Except.error e => Except.error e
    | Except.ok headerOut =>
      let rel0 := if truthyKeys rks then
          (rks.getD []).foldl (fun d k => dictInsert d k []) []
        else st.relevant_keys
      match extractLoop st.codes header key_column rks (dataLinesOf content) headerOut rel0 with
      | Except.error e => Except.error e
      | Except.ok (outContent, rel) =>
        Except.ok (dictInsert fs output_file outContent, { st with relevant_keys := rel },
          if rel.isEmpty then none else some rel)

/-- The list comprehension `[row[key_column] for row in reader]` of
`DataExtractor.read_codes`: one value per data line, in order; a row without
the key column raises `KeyError`.  Note that `read_codes` opens
`self.sample_file` even when its `file` argument is given (the argument is
rebound and then never used). -/
def readRows (header : List String) (key_column : String) :
    List String → Except String (List String)
  | [] => Except.ok []
  | line :: rest =>
    match dictGet (parse_row header "," line) key_column with
    | none => Except.error ("KeyError: " ++ key_column)
    | some v =>
      match readRows header key_column rest with
      | Except.error e => Except.error e
      | Except.ok vs => Except.ok (v :: vs)

/-- `DataExtractor.read_codes` proper, built on `readRows`. -/
def read_codes (fs : FileSys) (sample_file key_column : String)
    (file : Option String) : Except String (List String) :=
  let _file := file.getD sample_file
  match dictGet fs sample_file with
  | none => Except.error ("IOError: " ++ sample_file)
  | some content => readRows (headerOf content) key_column (dataLinesOf content)

/-- The `quote_mapping` dict of `DataExtractor.preprocess_data`; its second
key is the two-character mojibake sequence U+00E2 U+20AC. -/
def quote_mapping : List (String × String) :=
  [("'", "\u0022"), ("\u00e2\u20ac", "\u0022"), ("\u201C", "\u0022"),
   ("\u201E", "\u0022"), ("\u201D", "\u0022"), ("\u0022", "\u0022")]

/-- Python `str.maketrans` applied to a dict with string keys: every key must
be a single character, otherwise the call raises `ValueError`. -/
def pyMaketrans (m : List (String × String)) : Except String (List (Char × String)) :=
  if m.all (fun p => p.1.data.length = 1) then
    Except.ok (m.filterMap (fun p =>
      match p.1.data with
      | [c] => some (c, p.2)
      | _ => none))
  else
    Except.error "ValueError: string keys in translate table must be of length 1"

/-- Python `str.translate` with a character-to-string table. -/
def pyTranslate (table : List (Char × String)) (s : String) : String :=
  String.join (s.data.map (fun c =>
    match table.find? (fun p => p.1 = c) with
    | some p => p.2
    | none => String.mk [c]))

/-- `DataExtractor.preprocess_data`: for each file, read all its lines, build
the translation table with `str.maketrans(quote_mapping)` and rewrite the
file in place with every line translated. -/
def preprocess_data : List String → FileSys → Except String FileSys
  | [], fs => Except.ok fs
  | file :: rest, fs =>
    match dictGet fs file with
    | none => Except.error ("IOError: " ++ file)
    | some content =>
      match pyMaketrans quote_mapping with
      | Except.error e => Except.error e
      | Except.ok table =>
        preprocess_data rest
          (dictInsert fs file (String.join ((pyLines content).map (pyTranslate table))))

/-- One stage descriptor of the pipeline configuration. -/
structure StageDesc where
  input : String
  output : String
  key_column : String
  relevant_keys : Option (List String)

/-- One iteration of the stage loop in `process_extraction_info`:
`if codes: data_extractor.codes = codes.get(extraction['key_column'])`
followed by `codes = data_extractor.extract_data(...)`.  Besides the loop
state it returns the membership set (`data_extractor.codes`) that the stage
was actually filtered with. -/
def stageStep (fs : FileSys) (codesVar : Option (List (String × List String)))
    (st : ExtState) (stage : StageDesc) :
    Except String (FileSys × Option (List (String × List String)) × ExtState ×
      Option (List String)) :=
  let st1 := if truthyDict codesVar then
      { st with codes := dictGet (codesVar.getD []) stage.key_column }
    else st
  match extract_data fs st1 stage.input stage.output stage.key_column stage.relevant_keys with
  | Except.error e => Except.error e
  | Except.ok (fs', st', ret) => Except.ok (fs', ret, st', st1.codes)

/-- The stage loop of `process_extraction_info`, collecting for each stage
the membership set it was filtered with. -/
def runStages (fs : FileSys) (codesVar : Option (List (String × List String)))
    (st : ExtState) : List StageDesc →
    Except String (FileSys × Option (List (String × List String)) × ExtState ×
      List (Option (List String)))
  | [] => Except.ok (fs, codesVar, st, [])
  | stage :: rest =>
    match stageStep fs codesVar st stage with
    | Except.error e => Except.error e
    | Except.ok (fs', codesVar', st', used) =>
      match runStages fs' codesVar' st' rest with
      | Except.error e => Except.error e
      | Except.ok (fs'', codesVar'', st'', usedRest) =>
        Except.ok (fs'', codesVar'', st'', used :: usedRest)

/-- `process_extraction_info`, with the JSON configuration already decoded
into `sample_file`, `main_key_column` and the stage list: preprocess every
stage's input file, build the `DataExtractor` (its constructor reads the seed
codes from the sample file), and run the stage loop with `codes = None`. -/
def process_extraction_info (fs : FileSys) (sample_file main_key_column : String)
    (stages : List StageDesc) :
    Except String (FileSys × Option (List (String × List String)) × ExtState ×
      List (Option (List String))) :=
  match preprocess_data (stages.map (fun s => s.input)) fs with
  | Except.error e => Except.error e
  | Except.ok fs1 =>
    match read_codes fs1 sample_file main_key_column none with
    | Except.error e => Except.error e
    | Except.ok codes =>
      runStages fs1 none { codes := some codes, relevant_keys := [] } stages

/-- Whether a record passes a stage's filter against a membership list:
the record's key-column value is present and a member. -/
def rowMatches (codes : List String) (key_column : String) (row : Record) : Bool :=
  match dictGet row key_column with
  | some code => codes.contains code
  | none => false

/-- Serialization of a record whose schema fields are all present, under the
writer's quoting rule (used to state what `extract_data` writes). -/
def formatRowF (fieldnames : List String) (row : Record) : String :=
  String.intercalate ","
    (fieldnames.map (fun f => formatField "\"" ((dictGet row f).getD "")))

/-- Lines joined into file content, one line terminator per line. -/
def joinLines : List String → String
  | [] => ""
  | l :: ls => l ++ "\n" ++ joinLines ls

/-- The header row as `extract_data` writes it: each field name serialized as
its own value under the writer's quoting rule. -/
def headerLineF (header : List String) : String :=
  String.intercalate "," (header.map (formatField "\""))

/-- The sequence harvested for one declared key over a run of `extract_data`:
the key's value in each matching record that has the key, in input order. -/
def harvestedFor (codes : List String) (header : List String)
    (key_column : String) (k : String) (lines : List String) : List String :=
  (lines.filter (fun l => rowMatches codes key_column (parse_row header "," l))).filterMap
    (fun l => dictGet (parse_row header "," l) k)

theorem dictGet_dictInsert_self {α : Type} (d : List (String × α)) (k : String) (v : α) :
    dictGet (dictInsert d k v) k = some v := by
  induction d with
  | nil => simp [dictInsert, dictGet]
  | cons p rest ih =>
    obtain ⟨k', v'⟩ := p
    by_cases h : k' = k <;> simp [dictInsert, dictGet, h, ih]

theorem dictGet_dictInsert_ne {α : Type} (d : List (String × α)) (k k' : String) (v : α)
    (h : k' ≠ k) : dictGet (dictInsert d k' v) k = dictGet d k := by
  induction d with
  | nil => simp [dictInsert, dictGet, h]
  | cons p rest ih =>
    obtain ⟨k'', v''⟩ := p
    by_cases h2 : k'' = k'
    · subst h2
      simp [dictInsert, dictGet, h]
    · simp [dictInsert, dictGet, h2, ih]

theorem dictGet_dictAppend_self (d : List (String × List String)) (k : String) (v : String) :
    dictGet (dictAppend d k v) k = (dictGet d k).map (fun vs => vs ++ [v]) := by
  induction d with
  | nil => simp [dictAppend, dictGet]
  | cons p rest ih =>
    obtain ⟨k', vs⟩ := p
    by_cases h : k' = k <;> simp [dictAppend, dictGet, h, ih]

theorem dictGet_dictAppend_ne (d : List (String × List String)) (k k' : String) (v : String)
    (h : k' ≠ k) : dictGet (dictAppend d k' v) k = dictGet d k := by
  induction d with
  | nil => simp [dictAppend, dictGet]
  | cons p rest ih =>
    obtain ⟨k'', vs⟩ := p
    by_cases h2 : k'' = k'
    · subst h2
      simp [dictAppend, dictGet, h]
    · by_cases h3 : k'' = k
      · simp [dictAppend, dictGet, h2, h3, Ne.symm h]
      · simp [dictAppend, dictGet, h2, h3, ih]

theorem dictGet_mem_keys {α : Type} (d : List (String × α)) (k : String) (v : α)
    (h : dictGet d k = some v) : k ∈ d.map Prod.fst := by
  induction d with
  | nil => simp [dictGet] at h
  | cons p rest ih =>
    obtain ⟨k', v'⟩ := p
    by_cases h2 : k' = k
    · simp [h2]
    · simp [dictGet, h2] at h
      simp [ih h]

theorem dictInsert_of_not_mem {α : Type} (d : List (String × α)) (k : String) (v : α)
    (h : k ∉ d.map Prod.fst) : dictInsert d k v = d ++ [(k, v)] := by
  induction d with
  | nil => simp [dictInsert]
  | cons p rest ih =>
    obtain ⟨k', v'⟩ := p
    simp only [List.map_cons, List.mem_cons] at h
    push_neg at h
    simp [dictInsert, Ne.symm h.1, ih h.2]

theorem dictOf_go {α : Type} : ∀ (ps acc : List (String × α)),
    ((acc ++ ps).map Prod.fst).Nodup →
    ps.foldl (fun d p => dictInsert d p.1 p.2) acc = acc ++ ps := by
  intro ps
  induction ps with
  | nil => intro acc _; simp
  | cons p rest ih =>
    intro acc h
    obtain ⟨k, v⟩ := p
    have hk : k ∉ acc.map Prod.fst := by
      intro hmem
      simp only [List.map_append, List.nodup_append] at h
      exact h.2.2 hmem (by simp)
    have : (acc ++ (k, v) :: rest) = ((acc ++ [(k, v)]) ++ rest) := by simp
    rw [this] at h
    simpa [List.foldl, dictInsert_of_not_mem acc k v hk] using ih (acc ++ [(k, v)]) h

theorem dictOf_eq_self {α : Type} (ps : List (String × α))
    (h : (ps.map Prod.fst).Nodup) : dictOf ps = ps := by
  simpa using dictOf_go ps [] (by simpa using h)

theorem map_fst_zip_sublist {α β : Type} : ∀ (l₁ : List α) (l₂ : List β),
    ((l₁.zip l₂).map Prod.fst).Sublist l₁ := by
  intro l₁
  induction l₁ with
  | nil => intro l₂; simp
  | cons a l₁' ih =>
    intro l₂
    cases l₂ with
    | nil => simp
    | cons b l₂' => simpa using List.Sublist.cons₂ a (ih l₂')

theorem parse_row_eq_zip (fn : List String) (d line : String) (h : fn.Nodup) :
    parse_row fn d line = fn.zip (pySplit d (pyRstripNl line)) := by
  unfold parse_row
  exact dictOf_eq_self _ ((h.sublist (map_fst_zip_sublist fn _)))

theorem dictGet_zip_get (fn : List String) : ∀ (vs : List String), fn.Nodup →
    ∀ (i : Fin fn.length), dictGet (fn.zip vs) (fn.get i) = vs[i.val]? := by
  induction fn with
  | nil => intro vs _ i; exact absurd i.isLt (by simp)
  | cons f fn' ih =>
    intro vs h i
    cases vs with
    | nil => simp [dictGet]
    | cons v vs' =>
      rcases i with ⟨iv, hlt⟩
      cases iv with
      | zero => simp [dictGet]
      | succ j =>
        obtain ⟨hnotmem, hnd⟩ := List.nodup_cons.mp h
        have hj : j < fn'.length := by simpa using hlt
        have hne : f ≠ fn'.get ⟨j, hj⟩ := by
          intro hc
          exact hnotmem (hc ▸ List.get_mem fn' j hj)
        have hgetc : (f :: fn').get ⟨j + 1, hlt⟩ = fn'.get ⟨j, hj⟩ := rfl
        rw [hgetc]
        simp only [List.zip_cons_cons, dictGet, if_neg hne]
        have := ih vs' hnd ⟨j, hj⟩
        simpa using this

theorem formatVals_of_lookup (q : String) : ∀ (fn vs : List String) (row : Record),
    vs.length = fn.length →
    (∀ i : Fin fn.length, dictGet row (fn.get i) = vs[i.val]?) →
    formatVals q row fn = Except.ok (vs.map (formatField q)) := by
  intro fn
  induction fn with
  | nil =>
    intro vs row hl _
    have : vs = [] := List.length_eq_zero.mp (by simpa using hl)
    subst this
    simp [formatVals]
  | cons f fn' ih =>
    intro vs row hl hget
    cases vs with
    | nil => simp at hl
    | cons v vs' =>
      have h0 : dictGet row f = some v := by simpa using hget ⟨0, by simp⟩
      have hrest : formatVals q row fn' = Except.ok (vs'.map (formatField q)) := by
        apply ih vs' row (by simpa using hl)
        intro i
        have := hget ⟨i.val + 1, by simp [i.isLt]⟩
        simpa using this
      simp [formatVals, h0, hrest]
theorem formatVals_all_present (q : String) : ∀ (fn : List String) (row : Record),
    (∀ f ∈ fn, (dictGet row f).isSome) →
    formatVals q row fn = Except.ok (fn.map (fun f =>
      match dictGet row f with
      | some v => formatField q v
      | none => "")) := by
  intro fn
  induction fn with
  | nil => intro row _; simp [formatVals]
  | cons f fn' ih =>
    intro row h
    obtain ⟨v, hv⟩ := Option.isSome_iff_exists.mp (h f (by simp))
    have hrest := ih row (fun g hg => h g (by simp [hg]))
    simp [formatVals, hv, hrest]

/-- C7 counterexample: for the schema `["a","a","b"]` (duplicate field name)
and the line `"x,y"` (fewer values than schema fields), the parsed record does
not pair the first schema field positionally with the first value: looking up
`"a"` yields `"y"`, not `"x"`. -/
theorem claim7_counterexample :
    dictGet (parse_row ["a", "a", "b"] "," "x,y") "a" ≠ some "x" := by decide

/-- C7 (amended: the schema's field names must be pairwise distinct): parsing
a line pairs each schema field positionally with the line's value at the same
index — `none` (field absent, no error) when the line has fewer values, and
values beyond the schema length are dropped since the record contains only
schema fields, each bound to a value at an index below the schema length. -/
theorem claim7_parse (fieldnames : List String) (delimiter line : String)
    (hnd : fieldnames.Nodup) :
    (∀ i : Fin fieldnames.length,
      dictGet (parse_row fieldnames delimiter line) (fieldnames.get i) =
        (pySplit delimiter (pyRstripNl line))[i.val]?) ∧
    (∀ f, dictContains (parse_row fieldnames delimiter line) f = true → f ∈ fieldnames) := by
  constructor
  · intro i
    rw [parse_row_eq_zip _ _ _ hnd]
    exact dictGet_zip_get _ _ hnd i
  · intro f hf
    rw [parse_row_eq_zip _ _ _ hnd] at hf
    obtain ⟨v, hv⟩ := Option.isSome_iff_exists.mp (by simpa [dictContains] using hf)
    exact (map_fst_zip_sublist fieldnames _).subset (dictGet_mem_keys _ _ _ hv)

/-- Witness for C7: under the header `id,name`, the short line `1` parses to a
record where `id` is positionally bound to `1` and `name` is absent. -/
theorem claim7_witness :
    dictGet (parse_row ["id", "name"] "," "1") "id" = some "1" ∧
    dictGet (parse_row ["id", "name"] "," "1") "name" = none := by
  have h := claim7_parse ["id", "name"] "," "1" (by decide)
  exact ⟨(h.1 ⟨0, by decide⟩).trans (by decide), (h.1 ⟨1, by decide⟩).trans (by decide)⟩

/-- C5 counterexample: for the schema `["a","a"]` (duplicate field name) and
the line `"x,y"` (value list of the same length as the schema), serializing
the parsed record does not reproduce the original field values: it yields
`"y","y"` instead of `"x","y"`. -/
theorem claim5_counterexample :
    format_row ["a", "a"] "," "\"" (parse_row ["a", "a"] "," "x,y") ≠
      Except.ok (String.intercalate ","
        ((pySplit "," (pyRstripNl "x,y")).map (formatField "\""))) := by decide

/-- C5 (amended: the schema's field names must be pairwise distinct): for a
line whose value list has the schema's length, serializing the parsed record
reproduces each original field value, wrapped in the quote character when the
value contains no quote character and emitted as-is otherwise. -/
theorem claim5_roundtrip (fieldnames : List String) (delimiter quotechar line : String)
    (hnd : fieldnames.Nodup)
    (hlen : (pySplit delimiter (pyRstripNl line)).length = fieldnames.length) :
    format_row fieldnames delimiter quotechar (parse_row fieldnames delimiter line) =
      Except.ok (String.intercalate delimiter
        ((pySplit delimiter (pyRstripNl line)).map (formatField quotechar))) := by
  have hv : formatVals quotechar (parse_row fieldnames delimiter line) fieldnames =
      Except.ok ((pySplit delimiter (pyRstripNl line)).map (formatField quotechar)) := by
    apply formatVals_of_lookup _ _ _ _ hlen
    intro i
    rw [parse_row_eq_zip _ _ _ hnd]
    exact dictGet_zip_get _ _ hnd i
  simp [format_row, hv]

/-- Witness for C5: round-trip of the line `1,alice` under the header
`id,name` reproduces both values, quote-wrapped. -/
theorem claim5_witness :
    format_row ["id", "name"] "," "\"" (parse_row ["id", "name"] "," "1,alice") =
      Except.ok (String.intercalate ","
        ((pySplit "," (pyRstripNl "1,alice")).map (formatField "\""))) :=
  claim5_roundtrip ["id", "name"] "," "\"" "1,alice" (by decide) (by decide)

/-- C6 counterexample: with the configured quote character `'`, the value
`x'y` contains the configured quote character yet is still wrapped (the
source tests containment of the literal `"` instead): `_format_row` yields
`'x'y'`, not the claimed unquoted `x'y`. -/
theorem claim6_counterexample :
    format_row ["a"] "," "'" [("a", "x'y")] = Except.ok "'x'y'" ∧
    format_row ["a"] "," "'" [("a", "x'y")] ≠ Except.ok "x'y" := by decide

/-- C6 (amended): a field's value is wrapped in the configured quote
character exactly when it contains no straight double-quote character `"`
(not: no occurrence of the configured quote character); otherwise it is
emitted as-is.  The per-field strings are joined with the delimiter and
`writerow` appends exactly one line terminator. -/
theorem claim6_writerow (fieldnames : List String) (delimiter quotechar content : String)
    (row : Record) (h : ∀ f ∈ fieldnames, (dictGet row f).isSome) :
    writerow fieldnames delimiter quotechar content row =
      Except.ok (content ++ String.intercalate delimiter
        (fieldnames.map (fun f =>
          match dictGet row f with
          | some v => if strContainsChar v '"' then v else quotechar ++ v ++ quotechar
          | none => "")) ++ "\n") := by
  have hv := formatVals_all_present quotechar fieldnames row h
  have heq : (fieldnames.map (fun f =>
      match dictGet row f with
      | some v => formatField quotechar v
      | none => "")) = (fieldnames.map (fun f =>
      match dictGet row f with
      | some v => if strContainsChar v '"' then v else quotechar ++ v ++ quotechar
      | none => "")) := by
    apply List.map_congr_left
    intro f _
    cases dictGet row f <;> simp [formatField]
  rw [heq] at hv
  simp [writerow, format_row, hv]

/-- Witness for C6: a record with one quote-free value and one value holding
a straight double quote, written with quote character `'` and delimiter `;`. -/
theorem claim6_witness :
    writerow ["a", "b"] ";" "'" "start\n" [("a", "x"), ("b", "y\"z")] =
      Except.ok ("start\n" ++ String.intercalate ";"
        ((["a", "b"] : List String).map (fun f =>
          match dictGet [("a", "x"), ("b", "y\"z")] f with
          | some v => if strContainsChar v '"' then v else "'" ++ v ++ "'"
          | none => "")) ++ "\n") :=
  claim6_writerow ["a", "b"] ";" "'" "start\n" [("a", "x"), ("b", "y\"z")] (by decide)

/-- C1 counterexample: under the header `id,name` with key column `name`, the
short data line `1` parses to a record without the key column, and
`extract_data` raises `KeyError` instead of treating the record as
non-matching. -/
theorem claim1_counterexample :
    extract_data [("in", "id,name\n1\n")] ⟨some ["1"], []⟩ "in" "out" "name" none =
      Except.error "KeyError: name" := rfl

/-- C1 (amended): a record whose fields do not include the stage's key column
makes the filtering step raise a `KeyError` — the stage aborts with an
exception rather than silently excluding the record (only harvest fields
absent from a record are skipped without error). -/
theorem claim1_missing_key_raises (codes : Option (List String)) (header : List String)
    (key_column : String) (rks : Option (List String)) :
    ∀ (lines : List String) (out : String) (rel : List (String × List String)),
    (∃ l ∈ lines, dictGet (parse_row header "," l) key_column = none) →
    ∃ msg, extractLoop codes header key_column rks lines out rel = Except.error msg := by
  intro lines
  induction lines with
  | nil => intro out rel h; simp at h
  | cons line rest ih =>
    intro out rel h
    obtain ⟨l, hl, hnone⟩ := h
    cases hk : dictGet (parse_row header "," line) key_column with
    | none => exact ⟨"KeyError: " ++ key_column, by simp [extractLoop, hk]⟩
    | some code =>
      have hlrest : l ∈ rest := by
        rcases List.mem_cons.mp hl with h1 | h1
        · subst h1; rw [hk] at hnone; cases hnone
        · exact h1
      cases hm : memberCheck codes code with
      | error e => exact ⟨e, by simp [extractLoop, hk, hm]⟩
      | ok m =>
        cases m with
        | false =>
          obtain ⟨msg, hmsg⟩ := ih out rel ⟨l, hlrest, hnone⟩
          exact ⟨msg, by simp [extractLoop, hk, hm, hmsg]⟩
        | true =>
          cases hw : writerow header "," "\"" out (parse_row header "," line) with
          | error e => exact ⟨e, by simp [extractLoop, hk, hm, hw]⟩
          | ok out' =>
            obtain ⟨msg, hmsg⟩ := ih out'
              (if truthyKeys rks then harvestRow (rks.getD []) rel (parse_row header "," line)
               else rel) ⟨l, hlrest, hnone⟩
            exact ⟨msg, by simp [extractLoop, hk, hm, hw, hmsg]⟩

/-- Witness for C1 (amended): the row loop over the single short line `1`
under header `id,name`, filtering on `name`, errors. -/
theorem claim1_witness :
    ∃ msg, extractLoop (some ["1"]) ["id", "name"] "name" none ["1\n"] "" [] =
      Except.error msg :=
  claim1_missing_key_raises (some ["1"]) ["id", "name"] "name" none ["1\n"] "" []
    ⟨"1\n", by decide, by decide⟩

/-- C3: `preprocess_data` never rewrites anything — the `quote_mapping` dict
passed to `str.maketrans` has the two-character mojibake key U+00E2 U+20AC,
so `str.maketrans` raises `ValueError` before any line is translated; here on
a file containing curly-quoted `’hello’`. -/
theorem claim3_preprocess_raises :
    preprocess_data ["f"] [("f", "’hello’\n")] =
      Except.error "ValueError: string keys in translate table must be of length 1" := rfl

theorem readRows_all_present (header : List String) (key_column : String) :
    ∀ (lines : List String),
    (∀ l ∈ lines, (dictGet (parse_row header "," l) key_column).isSome) →
    readRows header key_column lines =
      Except.ok (lines.filterMap (fun l => dictGet (parse_row header "," l) key_column)) := by
  intro lines
  induction lines with
  | nil => intro _; simp [readRows]
  | cons line rest ih =>
    intro h
    obtain ⟨v, hv⟩ := Option.isSome_iff_exists.mp (h line (by simp))
    have hrest := ih (fun l hl => h l (by simp [hl]))
    simp [readRows, hv, hrest]

/-- C10: `read_codes` opens `self.sample_file` regardless of its `file`
argument, so its result equals the `file = None` call; and the value returned
is the sample file's key-column values in record order, duplicates
preserved (a list, not a set). -/
theorem claim10_read_codes (fs : FileSys) (sample_file key_column f content : String)
    (hc : dictGet fs sample_file = some content)
    (hall : ∀ l ∈ dataLinesOf content,
      (dictGet (parse_row (headerOf content) "," l) key_column).isSome) :
    read_codes fs sample_file key_column (some f) =
      read_codes fs sample_file key_column none ∧
    read_codes fs sample_file key_column (some f) =
      Except.ok ((dataLinesOf content).filterMap
        (fun l => dictGet (parse_row (headerOf content) "," l) key_column)) := by
  refine ⟨rfl, ?_⟩
  simp [read_codes, hc, readRows_all_present _ _ _ hall]

/-- Witness for C10: a sample file whose `id` column holds the duplicate
values `7,7`; the call with an explicit `file` argument still reads the
sample file and returns `["7","7"]`. -/
theorem claim10_witness :
    read_codes [("s", "id,name\n7,a\n7,b\n")] "s" "id" (some "other") =
      read_codes [("s", "id,name\n7,a\n7,b\n")] "s" "id" none ∧
    read_codes [("s", "id,name\n7,a\n7,b\n")] "s" "id" (some "other") =
      Except.ok ((dataLinesOf "id,name\n7,a\n7,b\n").filterMap
        (fun l => dictGet (parse_row (headerOf "id,name\n7,a\n7,b\n") "," l) "id")) :=
  claim10_read_codes [("s", "id,name\n7,a\n7,b\n")] "s" "id" "other" "id,name\n7,a\n7,b\n"
    (by decide) (by decide)

theorem format_row_eq_formatRowF (header : List String) (row : Record)
    (h : ∀ f ∈ header, (dictGet row f).isSome) :
    format_row header "," "\"" row = Except.ok (formatRowF header row) := by
  have hv := formatVals_all_present "\"" header row h
  have heq : (header.map (fun f => match dictGet row f with
      | some v => formatField "\"" v
      | none => "")) =
      header.map (fun f => formatField "\"" ((dictGet row f).getD "")) := by
    apply List.map_congr_left
    intro f hf
    obtain ⟨v, hv'⟩ := Option.isSome_iff_exists.mp (h f hf)
    simp [hv']
  rw [heq] at hv
  simp [format_row, hv, formatRowF]

theorem dictGet_selfmap_go : ∀ (l : List String) (acc : List (String × String)) (f : String),
    (dictGet acc f = some f ∨ f ∈ l) →
    dictGet (l.foldl (fun d k => dictInsert d k k) acc) f = some f := by
  intro l
  induction l with
  | nil =>
    intro acc f h
    rcases h with h | h
    · exact h
    · simp at h
  | cons k l' ih =>
    intro acc f h
    simp only [List.foldl_cons]
    apply ih
    by_cases hk : f = k
    · subst hk
      exact Or.inl (dictGet_dictInsert_self acc f f)
    · rcases h with h | h
      · exact Or.inl ((dictGet_dictInsert_ne acc f k k (Ne.symm hk)).trans h)
      · rcases List.mem_cons.mp h with h1 | h1
        · exact absurd h1 hk
        · exact Or.inr h1

theorem dictGet_selfmap (l : List String) (f : String) (hf : f ∈ l) :
    dictGet (dictOf (l.map (fun k => (k, k)))) f = some f := by
  unfold dictOf
  rw [List.foldl_map]
  exact dictGet_selfmap_go l [] f (Or.inr hf)

theorem header_writerow (header : List String) :
    writerow header "," "\"" "" (dictOf (header.map (fun k => (k, k)))) =
      Except.ok (headerLineF header ++ "\n") := by
  have h : ∀ f ∈ header, (dictGet (dictOf (header.map (fun k => (k, k)))) f).isSome := by
    intro f hf
    simp [dictGet_selfmap header f hf]
  have hfr := format_row_eq_formatRowF header _ h
  have heq : formatRowF header (dictOf (header.map (fun k => (k, k)))) = headerLineF header := by
    unfold formatRowF headerLineF
    congr 1
    apply List.map_congr_left
    intro f hf
    simp [dictGet_selfmap header f hf]
  rw [heq] at hfr
  simp [writerow, hfr]

theorem extractLoop_complete (S : List String) (header : List String) (key_column : String)
    (rks : Option (List String)) :
    ∀ (lines : List String) (out : String) (rel : List (String × List String)),
    (∀ l ∈ lines, (dictGet (parse_row header "," l) key_column).isSome) →
    (∀ l ∈ lines, ∀ f ∈ header, (dictGet (parse_row header "," l) f).isSome) →
    ∃ rel', extractLoop (some S) header key_column rks lines out rel =
      Except.ok (out ++ joinLines (((lines.filter (fun l =>
        rowMatches S key_column (parse_row header "," l))).map
        (fun l => formatRowF header (parse_row header "," l)))), rel') := by
  intro lines
  induction lines with
  | nil =>
    intro out rel _ _
    exact ⟨rel, by simp [extractLoop, joinLines]⟩
  | cons line rest ih =>
    intro out rel hkey hall
    obtain ⟨code, hk⟩ := Option.isSome_iff_exists.mp (hkey line (by simp))
    have hw := format_row_eq_formatRowF header (parse_row header "," line)
      (hall line (by simp))
    have hmc : memberCheck (some S) code = Except.ok (S.contains code) := rfl
    cases hm : S.contains code with
    | false =>
      rw [hm] at hmc
      have hmatch : rowMatches S key_column (parse_row header "," line) = false := by
        simp only [rowMatches, hk]
        exact hm
      obtain ⟨rel', hrec⟩ := ih out rel (fun l hl => hkey l (by simp [hl]))
        (fun l hl => hall l (by simp [hl]))
      refine ⟨rel', ?_⟩
      have hfil : List.filter (fun l => rowMatches S key_column (parse_row header "," l))
          (line :: rest) =
          List.filter (fun l => rowMatches S key_column (parse_row header "," l)) rest := by
        simp [List.filter_cons, hmatch]
      rw [hfil]
      have hstep : extractLoop (some S) header key_column rks (line :: rest) out rel =
          extractLoop (some S) header key_column rks rest out rel := by
        simp only [extractLoop, hk, hmc, Bool.false_eq_true, if_false]
      rw [hstep]
      exact hrec
    | true =>
      rw [hm] at hmc
      have hmatch : rowMatches S key_column (parse_row header "," line) = true := by
        simp only [rowMatches, hk]
        exact hm
      have hwrow : writerow header "," "\"" out (parse_row header "," line) =
          Except.ok (out ++ formatRowF header (parse_row header "," line) ++ "\n") := by
        simp [writerow, hw]
      obtain ⟨rel', hrec⟩ := ih
        (out ++ formatRowF header (parse_row header "," line) ++ "\n")
        (if truthyKeys rks then harvestRow (rks.getD []) rel (parse_row header "," line)
         else rel)
        (fun l hl => hkey l (by simp [hl])) (fun l hl => hall l (by simp [hl]))
      refine ⟨rel', ?_⟩
      have hfil : List.filter (fun l => rowMatches S key_column (parse_row header "," l))
          (line :: rest) =
          line :: List.filter (fun l => rowMatches S key_column (parse_row header "," l)) rest := by
        simp [List.filter_cons, hmatch]
      rw [hfil]
      have hstep : extractLoop (some S) header key_column rks (line :: rest) out rel =
          extractLoop (some S) header key_column rks rest
            (out ++ formatRowF header (parse_row header "," line) ++ "\n")
            (if truthyKeys rks then harvestRow (rks.getD []) rel (parse_row header "," line)
             else rel) := by
        simp only [extractLoop, hk, hmc, eq_self_iff_true, if_true, hwrow]
      rw [hstep, hrec]
      simp [joinLines, String.append_assoc]

/-- C2 counterexample: every record of the input stream contains the key
column `id` (the claim's stated precondition), codes are `{"1"}`, and the
single matching record `1` (short line under header `id,name`) makes the
writer raise `KeyError` — the promised header-plus-matching-records output is
never produced. -/
theorem claim2_counterexample :
    extract_data [("in", "id,name\n1\n")] ⟨some ["1"], []⟩ "in" "out" "id" none =
      Except.error "KeyError: name" := rfl

/-- C2 (amended: the precondition must require every record to contain every
schema field, not just the key column): `extract_data` then writes to the
output file exactly the header row followed by the matching records —
those whose key-column value is a member of the codes — serialized unchanged
under the writer's quoting rule and in input order. -/
theorem claim2_extract (fs : FileSys) (st : ExtState) (input output key_column : String)
    (rks : Option (List String)) (S : List String) (content : String)
    (hc : dictGet fs input = some content)
    (hS : st.codes = some S)
    (hkey : ∀ l ∈ dataLinesOf content,
      (dictGet (parse_row (headerOf content) "," l) key_column).isSome)
    (hall : ∀ l ∈ dataLinesOf content, ∀ f ∈ headerOf content,
      (dictGet (parse_row (headerOf content) "," l) f).isSome) :
    ∃ st' ret, extract_data fs st input output key_column rks =
      Except.ok (dictInsert fs output
        (joinLines (headerLineF (headerOf content) ::
          ((dataLinesOf content).filter (fun l =>
            rowMatches S key_column (parse_row (headerOf content) "," l))).map
          (fun l => formatRowF (headerOf content) (parse_row (headerOf content) "," l)))),
        st', ret) := by
  obtain ⟨rel', hloop⟩ := extractLoop_complete S (headerOf content) key_column rks
    (dataLinesOf content) (headerLineF (headerOf content) ++ "\n")
    (if truthyKeys rks then (rks.getD []).foldl (fun d k => dictInsert d k []) []
     else st.relevant_keys) hkey hall
  refine ⟨{ st with relevant_keys := rel' },
    (if rel'.isEmpty then none else some rel'), ?_⟩
  rw [show extract_data fs st input output key_column rks =
      match extractLoop st.codes (headerOf content) key_column rks (dataLinesOf content)
        (headerLineF (headerOf content) ++ "\n")
        (if truthyKeys rks then (rks.getD []).foldl (fun d k => dictInsert d k []) []
         else st.relevant_keys) with
      | Except.error e => Except.error e
      | Except.ok (outContent, rel) =>
        Except.ok (dictInsert fs output outContent, { st with relevant_keys := rel },
          if rel.isEmpty then none else some rel) from by
    simp only [extract_data, hc, header_writerow]]
  rw [hS, hloop]
  congr 2

/-- Witness for C2 (Scenario A of the specification): header `id,name`, seed
codes `{"1","3"}`, rows `1,alice` / `2,bob` / `3,carol`; the output is the
quoted header plus the quoted rows for `1,alice` and `3,carol`. -/
theorem claim2_witness :
    ∃ st' ret,
      extract_data [("in", "id,name\n1,alice\n2,bob\n3,carol\n")] ⟨some ["1", "3"], []⟩
        "in" "out" "id" none =
      Except.ok (dictInsert [("in", "id,name\n1,alice\n2,bob\n3,carol\n")] "out"
        (joinLines (headerLineF (headerOf "id,name\n1,alice\n2,bob\n3,carol\n") ::
          ((dataLinesOf "id,name\n1,alice\n2,bob\n3,carol\n").filter (fun l =>
            rowMatches ["1", "3"] "id"
              (parse_row (headerOf "id,name\n1,alice\n2,bob\n3,carol\n") "," l))).map
          (fun l => formatRowF (headerOf "id,name\n1,alice\n2,bob\n3,carol\n")
            (parse_row (headerOf "id,name\n1,alice\n2,bob\n3,carol\n") "," l)))),
        st', ret) :=
  claim2_extract [("in", "id,name\n1,alice\n2,bob\n3,carol\n")] ⟨some ["1", "3"], []⟩
    "in" "out" "id" none ["1", "3"] "id,name\n1,alice\n2,bob\n3,carol\n"
    (by decide) rfl (by decide) (by decide)

theorem harvestRow_get_notin : ∀ (rks : List String) (rel : List (String × List String))
    (row : Record) (k : String), k ∉ rks →
    dictGet (harvestRow rks rel row) k = dictGet rel k := by
  intro rks
  induction rks with
  | nil => intro rel row k _; rfl
  | cons r rs ih =>
    intro rel row k hk
    have hkr : r ≠ k := fun h => hk (by simp [h])
    have hkrs : k ∉ rs := fun h => hk (by simp [h])
    show dictGet (harvestRow rs (match dictGet row r with
      | some v => dictAppend rel r v
      | none => rel) row) k = dictGet rel k
    rw [ih _ row k hkrs]
    cases hv : dictGet row r with
    | none => rfl
    | some v => exact dictGet_dictAppend_ne rel k r v hkr

theorem harvestRow_get : ∀ (rks : List String) (rel : List (String × List String))
    (row : Record) (k : String), rks.Nodup → k ∈ rks →
    dictGet (harvestRow rks rel row) k =
      (dictGet rel k).map (fun vs => vs ++ (dictGet row k).toList) := by
  intro rks
  induction rks with
  | nil => intro rel row k _ hk; simp at hk
  | cons r rs ih =>
    intro rel row k hnd hk
    obtain ⟨hnotin, hnd'⟩ := List.nodup_cons.mp hnd
    show dictGet (harvestRow rs (match dictGet row r with
      | some v => dictAppend rel r v
      | none => rel) row) k =
      (dictGet rel k).map (fun vs => vs ++ (dictGet row k).toList)
    by_cases hr : k = r
    · subst hr
      rw [harvestRow_get_notin rs _ row k hnotin]
      cases hv : dictGet row k with
      | none =>
        cases hg : dictGet rel k <;> simp [hg]
      | some v =>
        rw [dictGet_dictAppend_self]
        cases hg : dictGet rel k <;> simp [hg]
    · have hkrs : k ∈ rs := by
        rcases List.mem_cons.mp hk with h1 | h1
        · exact absurd h1 hr
        · exact h1
      rw [ih _ row k hnd' hkrs]
      cases hv : dictGet row r with
      | none => rfl
      | some v => rw [dictGet_dictAppend_ne rel k r v (fun h => hr h.symm)]

/-- Appending to one harvest key and then looking it up later, expressed over
the whole loop: the final sequence for `k` is the initial one plus the
harvested values of `k` over the processed lines. -/
theorem extractLoop_harvest (S : List String) (header : List String) (key_column : String)
    (rkl : List String) (hne : rkl ≠ []) (hnd : rkl.Nodup) (k : String) (hk : k ∈ rkl) :
    ∀ (lines : List String) (out : String) (rel : List (String × List String))
      (out' : String) (rel' : List (String × List String)),
    extractLoop (some S) header key_column (some rkl) lines out rel = Except.ok (out', rel') →
    dictGet rel' k = (dictGet rel k).map
      (fun vs => vs ++ harvestedFor S header key_column k lines) := by
  have htr : truthyKeys (some rkl) = true := by
    cases rkl with
    | nil => exact absurd rfl hne
    | cons a as => simp [truthyKeys]
  intro lines
  induction lines with
  | nil =>
    intro out rel out' rel' h
    simp only [extractLoop, Except.ok.injEq, Prod.mk.injEq] at h
    obtain ⟨-, h2⟩ := h
    subst h2
    cases hg : dictGet rel k <;> simp [harvestedFor, hg]
  | cons line rest ih =>
    intro out rel out' rel' h
    cases hkc : dictGet (parse_row header "," line) key_column with
    | none => simp [extractLoop, hkc] at h
    | some code =>
      have hmc : memberCheck (some S) code = Except.ok (S.contains code) := rfl
      cases hm : S.contains code with
      | false =>
        rw [hm] at hmc
        have hmatch : rowMatches S key_column (parse_row header "," line) = false := by
          simp only [rowMatches, hkc]
          exact hm
        have hstep : extractLoop (some S) header key_column (some rkl) (line :: rest) out rel =
            extractLoop (some S) header key_column (some rkl) rest out rel := by
          simp only [extractLoop, hkc, hmc, Bool.false_eq_true, if_false]
        rw [hstep] at h
        rw [ih out rel out' rel' h]
        simp [harvestedFor, List.filter_cons, hmatch]
      | true =>
        rw [hm] at hmc
        have hmatch : rowMatches S key_column (parse_row header "," line) = true := by
          simp only [rowMatches, hkc]
          exact hm
        cases hw : writerow header "," "\"" out (parse_row header "," line) with
        | error e =>
          have : extractLoop (some S) header key_column (some rkl) (line :: rest) out rel =
              Except.error e := by
            simp only [extractLoop, hkc, hmc, eq_self_iff_true, if_true, htr, hw]
          rw [this] at h
          cases h
        | ok out1 =>
          have hstep : extractLoop (some S) header key_column (some rkl) (line :: rest) out rel =
              extractLoop (some S) header key_column (some rkl) rest out1
                (harvestRow rkl rel (parse_row header "," line)) := by
            simp only [extractLoop, hkc, hmc, eq_self_iff_true, if_true, htr, hw,
              Option.getD_some]
          rw [hstep] at h
          rw [ih out1 _ out' rel' h]
          rw [harvestRow_get rkl rel (parse_row header "," line) k hnd hk]
          have hhf : harvestedFor S header key_column k (line :: rest) =
              (dictGet (parse_row header "," line) k).toList ++
                harvestedFor S header key_column k rest := by
            simp only [harvestedFor, List.filter_cons, hmatch, if_true]
            cases hvk : dictGet (parse_row header "," line) k <;>
              simp [List.filterMap_cons, hvk]
          rw [hhf]
          cases hg : dictGet rel k <;> simp [hg]

theorem dictGet_initRel : ∀ (rkl : List String) (acc : List (String × List String))
    (k : String), (k ∈ rkl ∨ dictGet acc k = some []) →
    dictGet (rkl.foldl (fun d k' => dictInsert d k' []) acc) k = some [] := by
  intro rkl
  induction rkl with
  | nil =>
    intro acc k h
    rcases h with h | h
    · simp at h
    · exact h
  | cons r rs ih =>
    intro acc k h
    simp only [List.foldl_cons]
    apply ih
    by_cases hr : k = r
    · subst hr
      exact Or.inr (dictGet_dictInsert_self acc k [])
    · rcases h with h | h
      · rcases List.mem_cons.mp h with h1 | h1
        · exact absurd h1 hr
        · exact Or.inl h1
      · exact Or.inr ((dictGet_dictInsert_ne acc k r [] (Ne.symm hr)).trans h)

/-- C8 counterexample: with the duplicate declared harvest fields `g, g` and
a single matching record whose `g` value is `G1`, the returned harvest map
holds `["G1", "G1"]` — the value is appended once per occurrence of the
declared name — which is not exactly the values of the field taken from the
matching records (that sequence is `["G1"]`, as the second conjunct checks). -/
theorem claim8_counterexample :
    (extract_data [("in", "g\nG1\n")] ⟨some ["G1"], []⟩ "in" "out" "g" (some ["g", "g"]) =
      Except.ok ([("in", "g\nG1\n"), ("out", "\"g\"\n\"G1\"\n")],
        ⟨some ["G1"], [("g", ["G1", "G1"])]⟩, some [("g", ["G1", "G1"])])) ∧
    ["G1", "G1"] ≠ harvestedFor ["G1"] (headerOf "g\nG1\n") "g" "g" (dataLinesOf "g\nG1\n") :=
  ⟨rfl, by decide⟩

/-- C8 (amended: the declared harvest field names must be pairwise distinct):
when a stage declares such harvest fields, the harvest map returned by a
successful `extract_data` run maps each declared field name to exactly the
values of that field from the matching records in which the field is present,
in input order, duplicates preserved. -/
theorem claim8_harvest (fs : FileSys) (st : ExtState) (input output key_column : String)
    (rkl : List String) (S : List String) (content : String)
    (fs' : FileSys) (st' : ExtState) (ret : Option (List (String × List String)))
    (hne : rkl ≠ []) (hnd : rkl.Nodup)
    (hc : dictGet fs input = some content)
    (hS : st.codes = some S)
    (h : extract_data fs st input output key_column (some rkl) = Except.ok (fs', st', ret)) :
    ∃ m, ret = some m ∧ ∀ k ∈ rkl, dictGet m k =
      some (harvestedFor S (headerOf content) key_column k (dataLinesOf content)) := by
  have htr : truthyKeys (some rkl) = true := by
    cases rkl with
    | nil => exact absurd rfl hne
    | cons a as => simp [truthyKeys]
  rw [show extract_data fs st input output key_column (some rkl) =
      match extractLoop st.codes (headerOf content) key_column (some rkl) (dataLinesOf content)
        (headerLineF (headerOf content) ++ "\n")
        (rkl.foldl (fun d k => dictInsert d k []) []) with
      | Except.error e => Except.error e
      | Except.ok (outContent, rel) =>
        Except.ok (dictInsert fs output outContent, { st with relevant_keys := rel },
          if rel.isEmpty then none else some rel) from by
    simp only [extract_data, hc, header_writerow, htr, if_true, Option.getD_some]] at h
  rw [hS] at h
  cases hl : extractLoop (some S) (headerOf content) key_column (some rkl) (dataLinesOf content)
      (headerLineF (headerOf content) ++ "\n")
      (rkl.foldl (fun d k => dictInsert d k []) []) with
  | error e => rw [hl] at h; cases h
  | ok p =>
    obtain ⟨outContent, rel⟩ := p
    rw [hl] at h
    simp only [Except.ok.injEq, Prod.mk.injEq] at h
    obtain ⟨-, -, hret⟩ := h
    have hkeys : ∀ k ∈ rkl, dictGet rel k =
        some (harvestedFor S (headerOf content) key_column k (dataLinesOf content)) := by
      intro k hk
      have := extractLoop_harvest S (headerOf content) key_column rkl hne hnd k hk
        (dataLinesOf content) _ _ _ _ hl
      rw [dictGet_initRel rkl [] k (Or.inl hk)] at this
      simpa using this
    obtain ⟨k0, hk0⟩ := List.exists_mem_of_ne_nil rkl hne
    have hrelne : rel.isEmpty = false := by
      cases hrel : rel with
      | nil =>
        rw [hrel] at hkeys
        have := hkeys k0 hk0
        simp [dictGet] at this
      | cons a as => simp
    rw [hrelne] at hret
    simp only [Bool.false_eq_true, if_false] at hret
    exact ⟨rel, hret.symm, hkeys⟩

/-- Witness for C8: harvesting field `name` over `id,name` rows
`1,alice` / `1,bob` / `3,x` with codes `{"1","3"}` yields the ordered,
duplicate-preserving sequence `alice, bob, x`. -/
theorem claim8_witness :
    ∃ m, (some [("name", ["alice", "bob", "x"])] :
        Option (List (String × List String))) = some m ∧
      ∀ k ∈ ["name"], dictGet m k =
        some (harvestedFor ["1", "3"] (headerOf "id,name\n1,alice\n1,bob\n3,x\n") "id" k
          (dataLinesOf "id,name\n1,alice\n1,bob\n3,x\n")) :=
  claim8_harvest [("in", "id,name\n1,alice\n1,bob\n3,x\n")] ⟨some ["1", "3"], []⟩
    "in" "out" "id" ["name"] ["1", "3"] "id,name\n1,alice\n1,bob\n3,x\n"
    [("in", "id,name\n1,alice\n1,bob\n3,x\n"),
     ("out", "\"id\",\"name\"\n\"1\",\"alice\"\n\"1\",\"bob\"\n\"3\",\"x\"\n")]
    ⟨some ["1", "3"], [("name", ["alice", "bob", "x"])]⟩
    (some [("name", ["alice", "bob", "x"])])
    (by decide) (by decide) (by decide) rfl rfl

theorem extractLoop_rel_const (codes : Option (List String)) (header : List String)
    (key_column : String) (rks : Option (List String)) (hf : truthyKeys rks = false) :
    ∀ (lines : List String) (out : String) (rel : List (String × List String))
      (out' : String) (rel' : List (String × List String)),
    extractLoop codes header key_column rks lines out rel = Except.ok (out', rel') →
    rel' = rel := by
  intro lines
  induction lines with
  | nil =>
    intro out rel out' rel' h
    simp only [extractLoop, Except.ok.injEq, Prod.mk.injEq] at h
    exact h.2.symm
  | cons line rest ih =>
    intro out rel out' rel' h
    cases hkc : dictGet (parse_row header "," line) key_column with
    | none => simp [extractLoop, hkc] at h
    | some code =>
      cases codes with
      | none => simp [extractLoop, hkc, memberCheck] at h
      | some S =>
        have hmc : memberCheck (some S) code = Except.ok (S.contains code) := rfl
        cases hm : S.contains code with
        | false =>
          rw [hm] at hmc
          have hstep : extractLoop (some S) header key_column rks (line :: rest) out rel =
              extractLoop (some S) header key_column rks rest out rel := by
            simp only [extractLoop, hkc, hmc, Bool.false_eq_true, if_false]
          rw [hstep] at h
          exact ih _ _ _ _ h
        | true =>
          rw [hm] at hmc
          cases hw : writerow header "," "\"" out (parse_row header "," line) with
          | error e =>
            have hstep : extractLoop (some S) header key_column rks (line :: rest) out rel =
                Except.error e := by
              simp only [extractLoop, hkc, hmc, eq_self_iff_true, if_true, hf,
                Bool.false_eq_true, if_false, hw]
            rw [hstep] at h
            cases h
          | ok out1 =>
            have hstep : extractLoop (some S) header key_column rks (line :: rest) out rel =
                extractLoop (some S) header key_column rks rest out1 rel := by
              simp only [extractLoop, hkc, hmc, eq_self_iff_true, if_true, hf,
                Bool.false_eq_true, if_false, hw]
            rw [hstep] at h
            exact ih _ _ _ _ h

theorem extract_data_no_harvest (fs : FileSys) (st : ExtState)
    (input output key_column : String) (rks : Option (List String))
    (fs' : FileSys) (st' : ExtState) (ret : Option (List (String × List String)))
    (hf : truthyKeys rks = false) (hrel : st.relevant_keys = [])
    (h : extract_data fs st input output key_column rks = Except.ok (fs', st', ret)) :
    st'.codes = st.codes ∧ st'.relevant_keys = [] ∧ ret = none := by
  cases hc : dictGet fs input with
  | none => simp [extract_data, hc] at h
  | some content =>
    rw [show extract_data fs st input output key_column rks =
        match extractLoop st.codes (headerOf content) key_column rks (dataLinesOf content)
          (headerLineF (headerOf content) ++ "\n") st.relevant_keys with
        | Except.error e => Except.error e
        | Except.ok (outContent, rel) =>
          Except.ok (dictInsert fs output outContent, { st with relevant_keys := rel },
            if rel.isEmpty then none else some rel) from by
      simp only [extract_data, hc, header_writerow, hf, Bool.false_eq_true, if_false]] at h
    cases hl : extractLoop st.codes (headerOf content) key_column rks (dataLinesOf content)
        (headerLineF (headerOf content) ++ "\n") st.relevant_keys with
    | error e => rw [hl] at h; cases h
    | ok p =>
      obtain ⟨outContent, rel⟩ := p
      rw [hl] at h
      have hrc : rel = st.relevant_keys := extractLoop_rel_const _ _ _ _ hf _ _ _ _ _ hl
      rw [hrc, hrel] at h
      simp only [List.isEmpty_nil, if_true, Except.ok.injEq, Prod.mk.injEq] at h
      obtain ⟨-, h2, h3⟩ := h
      rw [← h2, ← h3]
      simp

theorem stageStep_used (fs : FileSys) (codesVar : Option (List (String × List String)))
    (st : ExtState) (stage : StageDesc) (fs' : FileSys)
    (codesVar' : Option (List (String × List String))) (st' : ExtState)
    (used : Option (List String))
    (h : stageStep fs codesVar st stage = Except.ok (fs', codesVar', st', used)) :
    used = (if truthyDict codesVar then
        { st with codes := dictGet (codesVar.getD []) stage.key_column }
      else st).codes := by
  simp only [stageStep] at h
  cases he : extract_data fs
      (if truthyDict codesVar then
        { st with codes := dictGet (codesVar.getD []) stage.key_column } else st)
      stage.input stage.output stage.key_column stage.relevant_keys with
  | error e => rw [he] at h; cases h
  | ok p =>
    obtain ⟨fsa, sta, reta⟩ := p
    rw [he] at h
    simp only [Except.ok.injEq, Prod.mk.injEq] at h
    exact h.2.2.2.symm

theorem stageStep_no_harvest (fs : FileSys) (codesVar : Option (List (String × List String)))
    (st : ExtState) (stage : StageDesc) (fs' : FileSys)
    (codesVar' : Option (List (String × List String))) (st' : ExtState)
    (used : Option (List String))
    (hrel : st.relevant_keys = [])
    (hf : truthyKeys stage.relevant_keys = false)
    (h : stageStep fs codesVar st stage = Except.ok (fs', codesVar', st', used)) :
    codesVar' = none ∧ st'.codes = used ∧ st'.relevant_keys = [] := by
  have hused := stageStep_used fs codesVar st stage fs' codesVar' st' used h
  simp only [stageStep] at h
  cases he : extract_data fs
      (if truthyDict codesVar then
        { st with codes := dictGet (codesVar.getD []) stage.key_column } else st)
      stage.input stage.output stage.key_column stage.relevant_keys with
  | error e => rw [he] at h; cases h
  | ok p =>
    obtain ⟨fsa, sta, reta⟩ := p
    rw [he] at h
    simp only [Except.ok.injEq, Prod.mk.injEq] at h
    obtain ⟨-, hcv, hst, -⟩ := h
    have hrel1 : (if truthyDict codesVar then
        { st with codes := dictGet (codesVar.getD []) stage.key_column }
      else st).relevant_keys = [] := by
      cases truthyDict codesVar <;> simp [hrel]
    obtain ⟨hcodes, hrelk, hret⟩ := extract_data_no_harvest fs _ _ _ _ _ _ _ _ hf hrel1 he
    refine ⟨?_, ?_, ?_⟩
    · rw [← hcv, hret]
    · rw [← hst, hcodes, hused]
    · rw [← hst]
      exact hrelk

/-- C4 counterexample: stage 0 harvests fields `g` and `h`; stage 1 declares
no harvest fields, yet returns the stale harvest map from stage 0, so stage 2
is filtered with `some ["H1"]` while stage 1 was filtered with `some ["G1"]`
— the membership set does not carry forward unchanged.  The last component of
the result lists the membership set each stage was filtered with. -/
theorem claim4_counterexample :
    runStages [("f0", "id,g,h\n1,G1,H1\n"), ("f1", "g,x\nG1,aa\n"), ("f2", "h,z\nH1,bb\n")]
      none ⟨some ["1"], []⟩
      [⟨"f0", "o0", "id", some ["g", "h"]⟩, ⟨"f1", "o1", "g", none⟩,
       ⟨"f2", "o2", "h", none⟩] =
      Except.ok ([("f0", "id,g,h\n1,G1,H1\n"), ("f1", "g,x\nG1,aa\n"),
        ("f2", "h,z\nH1,bb\n"), ("o0", "\"id\",\"g\",\"h\"\n\"1\",\"G1\",\"H1\"\n"),
        ("o1", "\"g\",\"x\"\n\"G1\",\"aa\"\n"), ("o2", "\"h\",\"z\"\n\"H1\",\"bb\"\n")],
        some [("g", ["G1"]), ("h", ["H1"])],
        ⟨some ["H1"], [("g", ["G1"]), ("h", ["H1"])]⟩,
        [some ["1"], some ["G1"], some ["H1"]]) ∧
    (some ["G1"] : Option (List String)) ≠ some ["H1"] :=
  ⟨rfl, by decide⟩

/-- C4 (amended: additionally no earlier stage may have harvested, i.e. the
extractor's harvest state is empty when the stage starts): a stage declaring
no harvest fields then returns no harvest map, and the next stage is filtered
with the same membership set as the current stage. -/
theorem claim4_carry_forward (fs : FileSys) (codesVar : Option (List (String × List String)))
    (st : ExtState) (stage stage2 : StageDesc) (fs' fs'' : FileSys)
    (codesVar' codesVar'' : Option (List (String × List String))) (st' st'' : ExtState)
    (used used' : Option (List String))
    (hrel : st.relevant_keys = [])
    (hf : truthyKeys stage.relevant_keys = false)
    (h1 : stageStep fs codesVar st stage = Except.ok (fs', codesVar', st', used))
    (h2 : stageStep fs' codesVar' st' stage2 = Except.ok (fs'', codesVar'', st'', used')) :
    used' = used := by
  obtain ⟨hcv, hcodes, -⟩ :=
    stageStep_no_harvest fs codesVar st stage fs' codesVar' st' used hrel hf h1
  have hused2 := stageStep_used fs' codesVar' st' stage2 fs'' codesVar'' st'' used' h2
  rw [hcv] at hused2
  simp only [truthyDict, Bool.false_eq_true, if_false] at hused2
  exact hused2.trans hcodes

/-- Witness for C4 (amended): two no-harvest stages run with an empty harvest
state; both are filtered with the membership set `some ["G1"]`. -/
theorem claim4_witness : (some ["G1"] : Option (List String)) = some ["G1"] :=
  claim4_carry_forward [("f1", "g\nG1\n"), ("f2", "g\nG1\n")] none ⟨some ["G1"], []⟩
    ⟨"f1", "o1", "g", none⟩ ⟨"f2", "o2", "g", none⟩
    [("f1", "g\nG1\n"), ("f2", "g\nG1\n"), ("o1", "\"g\"\n\"G1\"\n")]
    [("f1", "g\nG1\n"), ("f2", "g\nG1\n"), ("o1", "\"g\"\n\"G1\"\n"),
     ("o2", "\"g\"\n\"G1\"\n")]
    none none ⟨some ["G1"], []⟩ ⟨some ["G1"], []⟩ (some ["G1"]) (some ["G1"])
    rfl rfl rfl rfl

/-- C9 counterexample: the previous stage's harvest map holds only `g`, the
current stage's key column is `h`, and its input has no data rows: the
orchestrator signals nothing — `dict.get` yields `None`, the stage completes
successfully (header-only output, membership set `none`), and the pipeline
silently continues. -/
theorem claim9_counterexample :
    stageStep [("f", "h\n")] (some [("g", ["G1"])]) ⟨some ["1"], [("g", ["G1"])]⟩
      ⟨"f", "o", "h", none⟩ =
      Except.ok ([("f", "h\n"), ("o", "\"h\"\n")], some [("g", ["G1"])],
        ⟨none, [("g", ["G1"])]⟩, none) := rfl

/-- C9 (amended): when the previous stage's harvest map lacks the current
stage's key column, no configuration error is signaled: `dict.get` yields
`None` and the membership set becomes `None`.  The stage then fails at its
first data record — with a `TypeError` from the membership test when that
record contains the key column, and with a `KeyError` when it does not —
while a stage whose input has no data rows completes successfully, writing
only the header row, and the pipeline silently continues. -/
theorem claim9_missing_key (fs : FileSys) (hm : List (String × List String)) (st : ExtState)
    (stage : StageDesc) (content : String)
    (hne : hm ≠ [])
    (hmiss : dictGet hm stage.key_column = none)
    (hc : dictGet fs stage.input = some content) :
    (dataLinesOf content = [] →
      ∃ ret st', stageStep fs (some hm) st stage =
        Except.ok (dictInsert fs stage.output (headerLineF (headerOf content) ++ "\n"),
          ret, st', none)) ∧
    (∀ l rest, dataLinesOf content = l :: rest →
      (dictGet (parse_row (headerOf content) "," l) stage.key_column).isSome →
      stageStep fs (some hm) st stage =
        Except.error "TypeError: argument of type NoneType is not iterable") ∧
    (∀ l rest, dataLinesOf content = l :: rest →
      dictGet (parse_row (headerOf content) "," l) stage.key_column = none →
      stageStep fs (some hm) st stage =
        Except.error ("KeyError: " ++ stage.key_column)) := by
  have htd : truthyDict (some hm) = true := by
    cases hm with
    | nil => exact absurd rfl hne
    | cons a as => simp [truthyDict]
  have hst1 : (if truthyDict (some hm) then
      { st with codes := dictGet ((some hm).getD []) stage.key_column } else st) =
      { st with codes := none } := by
    simp [htd, hmiss]
  constructor
  · intro hempty
    have hok : stageStep fs (some hm) st stage =
        Except.ok (dictInsert fs stage.output (headerLineF (headerOf content) ++ "\n"),
          (if (if truthyKeys stage.relevant_keys then
              (stage.relevant_keys.getD []).foldl (fun d k => dictInsert d k []) []
            else st.relevant_keys).isEmpty then none
           else some (if truthyKeys stage.relevant_keys then
              (stage.relevant_keys.getD []).foldl (fun d k => dictInsert d k []) []
            else st.relevant_keys)),
          { codes := none, relevant_keys := (if truthyKeys stage.relevant_keys then
              (stage.relevant_keys.getD []).foldl (fun d k => dictInsert d k []) []
            else st.relevant_keys) }, none) := by
      simp only [stageStep]
      rw [hst1]
      simp only [extract_data, hc, header_writerow, hempty, extractLoop]
    exact ⟨_, _, hok⟩
  constructor
  · intro l rest hdl hkey
    obtain ⟨code, hcode⟩ := Option.isSome_iff_exists.mp hkey
    simp only [stageStep]
    rw [hst1]
    simp only [extract_data, hc, header_writerow, hdl, extractLoop, hcode, memberCheck]
  · intro l rest hdl hnokey
    simp only [stageStep]
    rw [hst1]
    simp only [extract_data, hc, header_writerow, hdl, extractLoop, hnokey]

/-- Witness for C9 (amended): harvest map `{g: [G1]}`, key column `z`.  When
the first data row contains `z` the stage raises `TypeError`; when the first
data row is too short to contain `z` the stage raises `KeyError`. -/
theorem claim9_witness :
    (stageStep [("f", "h,z\nH1,bb\n")] (some [("g", ["G1"])]) ⟨some ["1"], []⟩
      ⟨"f", "o", "z", none⟩ =
      Except.error "TypeError: argument of type NoneType is not iterable") ∧
    (stageStep [("f", "h,z\nX\nH1,bb\n")] (some [("g", ["G1"])]) ⟨some ["1"], []⟩
      ⟨"f", "o", "z", none⟩ = Except.error ("KeyError: " ++ "z")) :=
  ⟨(claim9_missing_key [("f", "h,z\nH1,bb\n")] [("g", ["G1"])] ⟨some ["1"], []⟩
      ⟨"f", "o", "z", none⟩ "h,z\nH1,bb\n" (by decide) (by decide) (by decide)).2.1
      "H1,bb\n" [] (by decide) (by decide),
   (claim9_missing_key [("f", "h,z\nX\nH1,bb\n")] [("g", ["G1"])] ⟨some ["1"], []⟩
      ⟨"f", "o", "z", none⟩ "h,z\nX\nH1,bb\n" (by decide) (by decide) (by decide)).2.2
      "X\n" ["H1,bb\n"] (by decide) (by decide)⟩

example : pySplit "," "" = [""] := by decide
example : pyLines "id,name\n1,alice\n" = ["id,name\n", "1,alice\n"] := by decide
example : pyLines "a\nb" = ["a\n", "b"] := by decide
example : parse_row ["id", "name"] "," "1,alice\n" = [("id", "1"), ("name", "alice")] := by decide
example : parse_row ["id", "name"] "," "1\n" = [("id", "1")] := by decide
example : format_row ["id", "name"] "," "\"" [("id", "1"), ("name", "alice")] =
    Except.ok "\"1\",\"alice\"" := by decide
example : format_row ["a"] "," "\"" [("a", "x\"y")] = Except.ok "x\"y" := by decide

end ExtractorTool
